import Mathlib

/-!
SubVault — formal model of the core data rules

Shallow embedding of the SubVault repository's core logic:

* handle normalization (`generate_handle` in SQL, `handleize` in the client),
* the `ensure_vault_handle` trigger and the vault handle check constraints,
* row-level-security-filtered reads/writes over vaults, payments and profiles,
  together with the `vault_spending_summary` view,
* the SIWE nonce issuance/verification endpoint (`GET`/`POST`),
* amount conversion and display formatting for payments.

Strings are modelled as `List Char`; timestamps as integers; machine numbers
as `Nat`/`Int` (the JavaScript computations modelled here are exact on the
integer inputs considered, which is noted at each definition).
-/

namespace SubVault

/-! ## Character classes -/

/-- `[a-z0-9]`: lowercase ASCII letter or digit. -/
def isLowerAlnum (c : Char) : Bool :=
  (('a' ≤ c && c ≤ 'z') || ('0' ≤ c && c ≤ '9'))

/-- `[a-z0-9-]`: a character allowed anywhere in a handle. -/
def okChar (c : Char) : Bool :=
  isLowerAlnum c || c == '-'

/-- ASCII digit `[0-9]`. -/
def isDigitCh (c : Char) : Bool :=
  '0' ≤ c && c ≤ '9'

/-- JS `\w` character class: `[A-Za-z0-9_]`. -/
def isWordChar (c : Char) : Bool :=
  (('a' ≤ c && c ≤ 'z') || ('A' ≤ c && c ≤ 'Z') || ('0' ≤ c && c ≤ '9') || c == '_')

/-! ## List utilities shared by the handle functions -/

/-- Postgres `TRIM(x)`: strip spaces from both ends. -/
def trimSpaces (l : List Char) : List Char :=
  ((l.dropWhile (· == ' ')).reverse.dropWhile (· == ' ')).reverse

/-- Lowercase every character (`LOWER(x)` / `toLowerCase()`, ASCII). -/
def lowerL (l : List Char) : List Char :=
  l.map Char.toLower

/-- One pass of `REGEXP_REPLACE(x, '[^a-z0-9]+', '-', 'g')`: first map every
character outside `[a-z0-9]` to `'-'`; collapsing the resulting hyphen runs is
done by `squeezeHyphens`. -/
def mapNonAlnumToHyphen (l : List Char) : List Char :=
  l.map (fun c => if isLowerAlnum c then c else '-')

/-- Collapse each run of consecutive `'-'` to a single `'-'`
(`REGEXP_REPLACE(x, '-+', '-', 'g')`). -/
def squeezeHyphens : List Char → List Char
  | [] => []
  | [c] => [c]
  | a :: b :: rest =>
    if a == '-' && b == '-' then squeezeHyphens (b :: rest)
    else a :: squeezeHyphens (b :: rest)

/-- Drop a maximal trailing run of hyphens (`-+$`). -/
def dropTrailingHyphens : List Char → List Char
  | [] => []
  | c :: rest =>
    match dropTrailingHyphens rest with
    | [] => if c == '-' then [] else [c]
    | r => c :: r

/-- `REGEXP_REPLACE(x, '^-+|-+$', '', 'g')`: strip hyphens from both ends. -/
def trimHyphens (l : List Char) : List Char :=
  dropTrailingHyphens (l.dropWhile (· == '-'))

/-- `REGEXP_REPLACE(x, '-$', '', 'g')`: the pattern anchors at the end, so at
most the single final character is removed. -/
def dropOneTrailingHyphen : List Char → List Char
  | [] => []
  | [c] => if c == '-' then [] else [c]
  | c :: rest => c :: dropOneTrailingHyphen rest

/-! ## `generate_handle` (SQL) and `handleize` (client) -/

/-- SQL `generate_handle(input_name)` from the migrations:
lowercase and trim the input, replace runs of characters outside `[a-z0-9]`
with a single hyphen, strip hyphens at both ends, collapse duplicate hyphens,
truncate to 50 characters, and strip a trailing hyphen the truncation may
have produced. -/
def generate_handle (input_name : List Char) : List Char :=
  let h1 := lowerL (trimSpaces input_name)
  let h2 := squeezeHyphens (mapNonAlnumToHyphen h1)
  let h3 := trimHyphens h2
  let h4 := squeezeHyphens h3
  let h5 := h4.take 50
  dropOneTrailingHyphen h5

/-- Client-side `handleize(name)` from `lib/utils.ts`: lowercase, replace each
space with `'-'`, delete every character outside `[a-z0-9-]`, then truncate to
32 characters. (No hyphen collapsing or end trimming.) -/
def handleize (name : List Char) : List Char :=
  let h := (lowerL name).map (fun c => if c == ' ' then '-' else c)
  let cleanHandle := h.filter okChar
  cleanHandle.take 32

/-! ## The handle regexes -/

/-- DFA for `^[a-z0-9]+(-[a-z0-9]+)*$`, run left to right.  The boolean state
records whether the previous character was in `[a-z0-9]` (so a hyphen or the
end of input is currently allowed). -/
def handleRegexAux : List Char → Bool → Bool
  | [], afterAlnum => afterAlnum
  | c :: cs, afterAlnum =>
    if isLowerAlnum c then handleRegexAux cs true
    else if c == '-' && afterAlnum then handleRegexAux cs false
    else false

/-- `x ~ '^[a-z0-9]+(-[a-z0-9]+)*$'`. -/
def matchesHandleRegex (l : List Char) : Bool :=
  handleRegexAux l false

/-- Last element of a character list (`getLast?`, in a shape convenient for
structural induction). -/
def lastCh : List Char → Option Char
  | [] => none
  | [c] => some c
  | _ :: b :: rest => lastCh (b :: rest)

/-- The check-constraint regex `'^[a-z0-9]([a-z0-9-]*[a-z0-9])?$'`:
nonempty, every character in `[a-z0-9-]`, and the first and last characters in
`[a-z0-9]`. -/
def vaultsHandleFormat (l : List Char) : Bool :=
  match l.head?, lastCh l with
  | some a, some b => isLowerAlnum a && isLowerAlnum b && l.all okChar
  | _, _ => false

/-- `LENGTH(TRIM(handle)) > 0`, the `vaults_handle_not_empty` constraint. -/
def vaultsHandleNotEmpty (l : List Char) : Bool :=
  0 < (trimSpaces l).length

/-! ### Structural lemmas about the handle pipeline -/

/-- No two adjacent hyphens anywhere in the list. -/
def noDoubleHyphen : List Char → Bool
  | [] => true
  | [_] => true
  | a :: b :: rest => !(a == '-' && b == '-') && noDoubleHyphen (b :: rest)

/-! ## Decimal rendering of numbers (JS `Number.prototype.toString` on
integer values, exact below 2^53) -/

/-- Fuel-based digit expansion; `natRepr n` uses fuel `n + 1`, which always
suffices since the argument strictly decreases. -/
def natReprAux : ℕ → ℕ → List Char
  | 0, _ => []
  | fuel + 1, n =>
    if n < 10 then [Char.ofNat (48 + n)]
    else natReprAux fuel (n / 10) ++ [Char.ofNat (48 + n % 10)]

/-- Decimal numeral of a natural number. -/
def natRepr (n : ℕ) : List Char :=
  natReprAux (n + 1) n

/-- Decimal numeral of an integer (a leading `'-'` when negative). -/
def intToDecString (n : ℤ) : List Char :=
  if n < 0 then '-' :: natRepr n.natAbs else natRepr n.natAbs

/-- `parseInt`/`parseFloat`/`CAST(.. AS NUMERIC)` on a run of ASCII digits. -/
def digitsToNat (l : List Char) : ℕ :=
  l.foldl (fun acc c => acc * 10 + (c.toNat - 48)) 0

/-! ## The `ensure_vault_handle` trigger (final migration)

State is the list of the owner's existing vault handles: the trigger's
uniqueness subquery is already scoped to `user_id = NEW.user_id`, so only the
caller's own handles are consulted. -/

/-- `EXISTS (SELECT 1 FROM vaults WHERE user_id = NEW.user_id AND
LOWER(handle) = LOWER(final_handle) ...)`. -/
def handleTaken (existing : List (List Char)) (h : List Char) : Bool :=
  existing.any (fun e => lowerL e == lowerL h)

/-- Candidate produced at loop counter `k`: the base handle itself at `k = 0`,
`base || '-' || k` afterwards. -/
def candidateHandle (base : List Char) (k : ℕ) : List Char :=
  if k = 0 then base else base ++ '-' :: natRepr k

/-- The trigger's `WHILE EXISTS ... LOOP counter := counter + 1; final_handle
:= base_handle || '-' || counter; END LOOP`, with explicit fuel (the concrete
theorems below always run it with enough fuel). -/
def pickHandle (existing : List (List Char)) (base : List Char) : ℕ → ℕ → List Char
  | k, 0 => candidateHandle base k
  | k, fuel + 1 =>
    if handleTaken existing (candidateHandle base k) then
      pickHandle existing base (k + 1) fuel
    else candidateHandle base k

/-- `ensure_vault_handle()` from the final migration: when the incoming handle
is null or blank, generate one from the name and de-collide with the counter
loop; otherwise just normalize the supplied handle. -/
def ensure_vault_handle (existing : List (List Char)) (name : List Char)
    (handle : Option (List Char)) : List Char :=
  match handle with
  | none => pickHandle existing (generate_handle name) 0 (existing.length + 1)
  | some h =>
    if trimSpaces h == [] then
      pickHandle existing (generate_handle name) 0 (existing.length + 1)
    else generate_handle h

/-- `LENGTH(TRIM(name)) > 0` (`vaults_name_not_empty`). -/
def vaultsNameNotEmpty (l : List Char) : Bool :=
  0 < (trimSpaces l).length

/-- An insert into `vaults`: the `ensure_vault_handle` trigger runs first,
then the row is accepted only if the check constraints hold.  Returns the
stored handle, or `none` when the insert is rejected. -/
def vaultInsert (existing : List (List Char)) (name : List Char)
    (handle : Option (List Char)) : Option (List Char) :=
  if vaultsNameNotEmpty name
      && vaultsHandleNotEmpty (ensure_vault_handle existing name handle)
      && vaultsHandleFormat (ensure_vault_handle existing name handle) then
    some (ensure_vault_handle existing name handle)
  else none

/-! ## Row-level security over vaults, payments and profiles

Model of the final schema (`simplify_to_vaults_and_payments` plus the later
payment-simplification migrations): a vault belongs to one user; a payment
belongs to one vault; a profile is 1:1 with a user.  Every read and write is
filtered by the policy predicates exactly as the SQL policies state them. -/

/-- `payment_status` enum of the final schema revision. -/
inductive PaymentStatus
  | pending
  | active
  | paused
  | completed
  | cancelled
deriving DecidableEq, Repr

structure Vault where
  id : ℕ
  user_id : ℕ
  name : List Char
  handle : List Char
  emoji : List Char
deriving DecidableEq, Repr

structure Payment where
  id : ℕ
  vault_id : ℕ
  /-- `amount TEXT NOT NULL DEFAULT '0'`: smallest-unit decimal string. -/
  amount : List Char
  status : PaymentStatus
  next_execution_date : Option ℤ
  executed_count : ℕ
  transaction_hashes : List (List Char)
  last_payment_date : Option ℤ
deriving DecidableEq, Repr

structure UserProfile where
  user_id : ℕ
  address : List Char
  onboarding_complete : Bool
deriving DecidableEq, Repr

structure DB where
  vaults : List Vault
  payments : List Payment
  profiles : List UserProfile
deriving DecidableEq, Repr

/-- Vault policies (`auth.uid() = user_id`), identical for
SELECT/INSERT/UPDATE/DELETE. -/
def vaultPolicy (uid : ℕ) (v : Vault) : Bool :=
  uid == v.user_id

/-- Payment policies: `vault_id IN (SELECT id FROM vaults WHERE user_id =
auth.uid())`, identical for SELECT/INSERT/UPDATE/DELETE. -/
def paymentPolicy (db : DB) (uid : ℕ) (p : Payment) : Bool :=
  db.vaults.any (fun v => (v.id == p.vault_id) && (uid == v.user_id))

/-- Profile SELECT/UPDATE policy (`auth.uid() = user_id`). -/
def profilePolicy (uid : ℕ) (r : UserProfile) : Bool :=
  uid == r.user_id

/-- Transitive ownership of a payment through its vault's owner. -/
def ownsPayment (db : DB) (uid : ℕ) (p : Payment) : Prop :=
  ∃ v ∈ db.vaults, v.id = p.vault_id ∧ v.user_id = uid

instance (db : DB) (uid : ℕ) (p : Payment) : Decidable (ownsPayment db uid p) :=
  inferInstanceAs (Decidable (∃ v ∈ db.vaults, v.id = p.vault_id ∧ v.user_id = uid))

/-- A SELECT with client predicate `q` under RLS. -/
def selectVaults (db : DB) (uid : ℕ) (q : Vault → Bool) : List Vault :=
  db.vaults.filter (fun v => q v && vaultPolicy uid v)

def selectPayments (db : DB) (uid : ℕ) (q : Payment → Bool) : List Payment :=
  db.payments.filter (fun p => q p && paymentPolicy db uid p)

def selectProfiles (db : DB) (uid : ℕ) (q : UserProfile → Bool) : List UserProfile :=
  db.profiles.filter (fun r => q r && profilePolicy uid r)

/-- An UPDATE on payments: rows matching both the client predicate and the
policy's USING clause are rewritten by `f`; the affected-row count is
returned alongside the new database. -/
def updatePayments (db : DB) (uid : ℕ) (q : Payment → Bool)
    (f : Payment → Payment) : DB × ℕ :=
  ({ db with payments := (db.payments.map
      (fun p => if q p && paymentPolicy db uid p then f p else p)) },
   (db.payments.filter (fun p => q p && paymentPolicy db uid p)).length)

/-- A DELETE on payments under RLS. -/
def deletePayments (db : DB) (uid : ℕ) (q : Payment → Bool) : DB × ℕ :=
  ({ db with payments := (db.payments.filter
      (fun p => !(q p && paymentPolicy db uid p))) },
   (db.payments.filter (fun p => q p && paymentPolicy db uid p)).length)

/-- An UPDATE on vaults: the policy's USING clause (`auth.uid() = user_id`)
filters the target rows. -/
def updateVaults (db : DB) (uid : ℕ) (q : Vault → Bool)
    (f : Vault → Vault) : DB × ℕ :=
  ({ db with vaults := (db.vaults.map
      (fun v => if q v && vaultPolicy uid v then f v else v)) },
   (db.vaults.filter (fun v => q v && vaultPolicy uid v)).length)

/-- A DELETE on vaults under RLS, with the `ON DELETE CASCADE` to payments:
the payments of every deleted vault are removed in the same statement.  The
affected-row count is the number of vault rows deleted. -/
def deleteVaults (db : DB) (uid : ℕ) (q : Vault → Bool) : DB × ℕ :=
  ({ db with
      vaults := (db.vaults.filter (fun v => !(q v && vaultPolicy uid v))),
      payments := (db.payments.filter (fun p =>
        !(db.vaults.any (fun v => (q v && vaultPolicy uid v) && v.id == p.vault_id)))) },
   (db.vaults.filter (fun v => q v && vaultPolicy uid v)).length)

/-- An UPDATE on user profiles: the policy's USING clause
(`auth.uid() = user_id`) filters the target rows. -/
def updateProfiles (db : DB) (uid : ℕ) (q : UserProfile → Bool)
    (f : UserProfile → UserProfile) : DB × ℕ :=
  ({ db with profiles := (db.profiles.map
      (fun r => if q r && profilePolicy uid r then f r else r)) },
   (db.profiles.filter (fun r => q r && profilePolicy uid r)).length)

/-! ### The `vault_spending_summary` view (final revision,
`fix_vault_spending_summary.sql`) -/

/-- `CAST(p.amount AS NUMERIC)` on a decimal string with optional sign. -/
def castNumeric (l : List Char) : ℤ :=
  match l with
  | '-' :: r => -(digitsToNat r : ℤ)
  | _ => (digitsToNat l : ℤ)

structure SummaryRow where
  vault_id : ℕ
  vault_name : List Char
  vault_emoji : List Char
  total_payments : ℕ
  active_payments : ℕ
  completed_payments : ℕ
  total_spent : ℤ
deriving DecidableEq, Repr

/-- The grouped row the view computes for one vault from its joined
payments. -/
def summaryRowFor (ps : List Payment) (v : Vault) : SummaryRow :=
  { vault_id := v.id
    vault_name := v.name
    vault_emoji := v.emoji
    total_payments := ps.length
    active_payments := (ps.filter (fun p => p.status == PaymentStatus.active)).length
    completed_payments := (ps.filter (fun p => p.status == PaymentStatus.completed)).length
    total_spent := ((ps.filter (fun p => p.status == PaymentStatus.completed)).map
      (fun p => castNumeric p.amount)).sum }

/-- The view as the caller sees it: `security_invoker = true` makes the
underlying tables' RLS apply, and the view body adds
`WHERE v.user_id = auth.uid()`. -/
def vaultSpendingSummary (db : DB) (uid : ℕ) : List SummaryRow :=
  (db.vaults.filter (fun v => vaultPolicy uid v && (uid == v.user_id))).map
    (fun v => summaryRowFor
      (db.payments.filter (fun p => (p.vault_id == v.id) && paymentPolicy db uid p)) v)

/-- The naive (unfiltered) version of the same view body: every vault joined
against every payment, no ownership filter anywhere. -/
def naiveVaultSpendingSummary (db : DB) : List SummaryRow :=
  db.vaults.map
    (fun v => summaryRowFor (db.payments.filter (fun p => p.vault_id == v.id)) v)

/-! ## SIWE nonce authentication endpoint

The `POST` handler of the auth-verification route: parse fields, extract the
nonce and the chain id from the message with the regexes `/Nonce: (\w+)/` and
`/Chain ID: (\d+)/`, look the nonce up (`eq nonce`, `gt expires_at now`),
delete it, then verify the signature against an RPC client whose chain is
chosen from the message's chain id (84532 → Base Sepolia, anything else or
absent → Base mainnet).  The verifier is abstracted as an oracle
`verify : Chain → Bool` giving the result of `client.verifyMessage` on each
chain's client. -/

structure NonceRow where
  nonce : List Char
  expires_at : ℤ
deriving DecidableEq, Repr

inductive Chain
  | base
  | baseSepolia
deriving DecidableEq, Repr

inductive AuthResponse
  /-- 400 `Missing required fields`. -/
  | missingFields
  /-- 400 `Invalid message format - nonce not found`. -/
  | invalidMessageFormat
  /-- 401 `Invalid or expired nonce`. -/
  | invalidOrExpiredNonce
  /-- 401 `Invalid signature`. -/
  | invalidSignature
  /-- 200 `{ ok: true, address, session }`; records which chain's verifier
  was consulted. -/
  | success (chain : Chain)
deriving DecidableEq, Repr

def startsWithL : List Char → List Char → Bool
  | [], _ => true
  | _ :: _, [] => false
  | p :: ps, c :: cs => p == c && startsWithL ps cs

/-- JS `msg.match(/pat(X+)/)?.[1]` where `X` is the class `ok`: the capture at
the first position where the whole pattern (literal `pat` followed by at
least one `ok` character) matches. -/
def extractAfter (pat : List Char) (ok : Char → Bool) : List Char → Option (List Char)
  | [] => none
  | c :: cs =>
    if startsWithL pat (c :: cs) then
      let tok := ((c :: cs).drop pat.length).takeWhile ok
      if tok.isEmpty then extractAfter pat ok cs else some tok
    else extractAfter pat ok cs

/-- `message.match(/Nonce: (\w+)/)?.[1]`. -/
def extractNonce (msg : List Char) : Option (List Char) :=
  extractAfter ('N' :: 'o' :: 'n' :: 'c' :: 'e' :: ':' :: ' ' :: []) isWordChar msg

/-- `parseInt(message.match(/Chain ID: (\d+)/)?.[1])`. -/
def extractChainId (msg : List Char) : Option ℕ :=
  (extractAfter ('C' :: 'h' :: 'a' :: 'i' :: 'n' :: ' ' :: 'I' :: 'D' :: ':' :: ' ' :: [])
    isDigitCh msg).map digitsToNat

/-- `const chain = chainId === 84532 ? baseSepolia : base`, with the default
`8453` when the message carries no chain id. -/
def chainOfMessage (msg : List Char) : Chain :=
  match extractChainId msg with
  | some cid => if cid = 84532 then Chain.baseSepolia else Chain.base
  | none => Chain.base

/-- The nonce-freshness SELECT: `.eq('nonce', nonce).gt('expires_at', now)`
returned a row. -/
def nonceLookup (store : List NonceRow) (now : ℤ) (n : List Char) : Bool :=
  store.any (fun r => r.nonce == n && decide (now < r.expires_at))

/-- The DELETE `.eq('nonce', nonce)`: the remaining store and the
affected-row count (which the handler never examines). -/
def nonceDelete (store : List NonceRow) (n : List Char) : List NonceRow × ℕ :=
  (store.filter (fun r => !(r.nonce == n)),
   (store.filter (fun r => r.nonce == n)).length)

/-- The handler's continuation after the lookup result is known: signature
verification runs only when the lookup succeeded, and nothing ever inspects
the delete's affected-row count. -/
def redeemOutcome (found : Bool) (chain : Chain) (verify : Chain → Bool) : AuthResponse :=
  if found then
    if verify chain then AuthResponse.success chain else AuthResponse.invalidSignature
  else AuthResponse.invalidOrExpiredNonce

/-- The whole `POST` handler of the chain-aware verification route, as a
function of the nonce store, the clock, the request body and the verifier
oracle.  Returns the response and the store left behind. -/
def postVerify (store : List NonceRow) (now : ℤ) (address message signature : List Char)
    (verify : Chain → Bool) : AuthResponse × List NonceRow :=
  if address.isEmpty || message.isEmpty || signature.isEmpty then
    (AuthResponse.missingFields, store)
  else
    match extractNonce message with
    | none => (AuthResponse.invalidMessageFormat, store)
    | some n =>
      let chain := chainOfMessage message
      let found := nonceLookup store now n
      let store' := if found then (nonceDelete store n).1 else store
      (redeemOutcome found chain verify, store')

/-- The `POST` handler of the repository's other verification route file,
whose viem client is constructed once at module scope with
`createPublicClient({ chain: base, transport: http() })`: the message's chain
id is never read, and every signature is checked by the mainnet verifier. -/
def postVerifyLegacy (store : List NonceRow) (now : ℤ)
    (address message signature : List Char) (verify : Chain → Bool) :
    AuthResponse × List NonceRow :=
  if address.isEmpty || message.isEmpty || signature.isEmpty then
    (AuthResponse.missingFields, store)
  else
    match extractNonce message with
    | none => (AuthResponse.invalidMessageFormat, store)
    | some n =>
      let found := nonceLookup store now n
      let store' := if found then (nonceDelete store n).1 else store
      (redeemOutcome found Chain.base verify, store')

/-- The `GET` handler: persist the fresh nonce with a five-minute expiry
(`Date.now() + 5 * 60 * 1000`). -/
def issueNonce (store : List NonceRow) (nonce : List Char) (now : ℤ) : List NonceRow :=
  store ++ [⟨nonce, now + 5 * 60 * 1000⟩]

/-! ## Payment amounts

`createPaymentSeries` converts the user-entered USDC amount with
`(parseFloat(validated.amount) * 1_000_000).toString()`.  On inputs whose
decimal value is an integer `n` with `|n| * 10^6 ≤ 2^53` the double
computation is exact and `toString` renders the plain decimal numeral, so on
that domain it is modelled as exact integer arithmetic.  Outside it the model
diverges from JavaScript: products above `2^53` are rounded, and from `10^21`
upward `Number.prototype.toString` switches to exponential notation (an
entered `"1000000000000000"` stores `"1e+21"`), so every theorem about this
definition carries the `|n| * 10^6 ≤ 2^53` bound. -/

/-- `(parseFloat(s) * 1_000_000).toString()` for an input string of integer
value `usdc`, faithful only for `|usdc| * 10^6 ≤ 2^53` (see the section
comment above). -/
def amountInSmallestUnit (usdc : ℤ) : List Char :=
  intToDecString (usdc * 1000000)

/-- A non-empty all-digit string: the shape the spec's invariant demands of a
stored `payments.amount`. -/
def isNonNegIntString (l : List Char) : Bool :=
  !l.isEmpty && l.all isDigitCh

/-- The only validation `createPaymentSeries` applies to the amount field:
`z.string().min(1, "Amount is required")`. -/
def amountInputValid (l : List Char) : Bool :=
  1 ≤ l.length

/-- `updatePaymentExecutionDate(id, nextDate)`: sets the execution date,
flips status between active/completed, writes `executed_count`; never touches
`amount`. -/
def updatePaymentExecutionDate (p : Payment) (nextDate : Option ℤ) : Payment :=
  { p with next_execution_date := nextDate,
           status := if nextDate.isSome then PaymentStatus.active
                     else PaymentStatus.completed,
           executed_count := 1 }

/-- `storePaymentTransaction`: appends the transaction hash, stamps
`last_payment_date`, bumps `executed_count`; never touches `amount`. -/
def storePaymentTransaction (p : Payment) (txHash : List Char) (now : ℤ) : Payment :=
  { p with transaction_hashes := p.transaction_hashes ++ [txHash],
           last_payment_date := some now,
           executed_count := p.executed_count + 1 }

/-! ## Display formatting of amounts

`formatAmount` renders `parseFloat(amount) / 1_000_000` with
`Intl.NumberFormat("en-US", { style: "currency", currency: "USD" })`, which
shows exactly two fraction digits, rounding half away from zero.  For an
integer amount string of value `n` this displays `displayCents n` cents;
the model is exact whenever the double quotient is not within one ulp of a
half-cent boundary (true of every whole-cent amount and of the claim's test
values). -/

/-- Cents shown by `formatAmount` for `n` smallest units: `n / 10^6` dollars
rounded to the nearest cent, halves away from zero. -/
def displayCents (n : ℕ) : ℕ :=
  (100 * n + 500000) / 1000000

/-- Re-parse the displayed dollars-and-cents figure back to smallest units. -/
def displayRoundTrip (n : ℕ) : ℕ :=
  displayCents n * 10000

/-! ## Lemmas about the handle pipeline and digit rendering -/

theorem noDoubleHyphen_tail {a : Char} {l : List Char}
    (h : noDoubleHyphen (a :: l) = true) : noDoubleHyphen l = true := by
  cases l with
  | nil => rfl
  | cons b rest =>
    simp only [noDoubleHyphen, Bool.and_eq_true] at h
    exact h.2

theorem mem_mapNonAlnumToHyphen {c : Char} {l : List Char}
    (h : c ∈ mapNonAlnumToHyphen l) : okChar c = true := by
  simp only [mapNonAlnumToHyphen, List.mem_map] at h
  obtain ⟨a, -, rfl⟩ := h
  by_cases ha : isLowerAlnum a = true <;> simp [okChar, ha]

theorem mem_squeezeHyphens {c : Char} : ∀ {l : List Char},
    c ∈ squeezeHyphens l → c ∈ l
  | [], h => by simp [squeezeHyphens] at h
  | [a], h => by simpa [squeezeHyphens] using h
  | a :: b :: rest, h => by
    simp only [squeezeHyphens] at h
    split at h
    · exact List.mem_cons_of_mem a (mem_squeezeHyphens h)
    · rcases List.mem_cons.mp h with rfl | h'
      · exact List.mem_cons_self _ _
      · exact List.mem_cons_of_mem a (mem_squeezeHyphens h')

theorem head?_squeezeHyphens : ∀ (l : List Char),
    (squeezeHyphens l).head? = l.head?
  | [] => rfl
  | [_] => rfl
  | a :: b :: rest => by
    simp only [squeezeHyphens]
    split
    · rename_i hab
      simp only [Bool.and_eq_true, beq_iff_eq] at hab
      obtain ⟨rfl, rfl⟩ := hab
      exact (head?_squeezeHyphens ('-' :: rest)).trans rfl
    · rfl

theorem noDoubleHyphen_squeezeHyphens : ∀ (l : List Char),
    noDoubleHyphen (squeezeHyphens l) = true
  | [] => rfl
  | [_] => rfl
  | a :: b :: rest => by
    simp only [squeezeHyphens]
    split
    · exact noDoubleHyphen_squeezeHyphens (b :: rest)
    · rename_i hab
      have ih := noDoubleHyphen_squeezeHyphens (b :: rest)
      have hh := head?_squeezeHyphens (b :: rest)
      cases hsq : squeezeHyphens (b :: rest) with
      | nil => rfl
      | cons x xs =>
        rw [hsq] at hh ih
        simp only [List.head?_cons, Option.some.injEq] at hh
        subst hh
        simp only [noDoubleHyphen, Bool.and_eq_true, Bool.not_eq_true']
        exact ⟨Bool.eq_false_iff.mpr hab, ih⟩


theorem squeezeHyphens_of_noDoubleHyphen : ∀ {l : List Char},
    noDoubleHyphen l = true → squeezeHyphens l = l
  | [], _ => rfl
  | [_], _ => rfl
  | a :: b :: rest, h => by
    simp only [noDoubleHyphen, Bool.and_eq_true, Bool.not_eq_true'] at h
    simp only [squeezeHyphens, h.1, if_neg]
    rw [squeezeHyphens_of_noDoubleHyphen h.2]
    simp [h.1]

theorem noDoubleHyphen_pair {a b : Char} {l : List Char}
    (h : noDoubleHyphen (a :: l) = true) (hb : l.head? = some b) :
    (a == '-' && b == '-') = false := by
  cases l with
  | nil => simp at hb
  | cons x xs =>
    simp only [List.head?_cons, Option.some.injEq] at hb
    subst hb
    simp only [noDoubleHyphen, Bool.and_eq_true, Bool.not_eq_true'] at h
    exact h.1

theorem noDoubleHyphen_cons_of {a : Char} {l : List Char}
    (hl : noDoubleHyphen l = true)
    (hp : ∀ b, l.head? = some b → (a == '-' && b == '-') = false) :
    noDoubleHyphen (a :: l) = true := by
  cases l with
  | nil => rfl
  | cons x xs =>
    simp only [noDoubleHyphen, Bool.and_eq_true, Bool.not_eq_true']
    exact ⟨hp x rfl, hl⟩

theorem head?_take {n : ℕ} {l : List Char} {c : Char}
    (h : (l.take n).head? = some c) : l.head? = some c := by
  cases l with
  | nil => simp at h
  | cons x xs =>
    cases n with
    | zero => simp at h
    | succ m => simpa using h

theorem noDoubleHyphen_take : ∀ (n : ℕ) {l : List Char},
    noDoubleHyphen l = true → noDoubleHyphen (l.take n) = true
  | 0, l, _ => by simp [noDoubleHyphen]
  | n + 1, [], _ => rfl
  | n + 1, c :: t, h => by
    simp only [List.take_succ_cons]
    refine noDoubleHyphen_cons_of (noDoubleHyphen_take n (noDoubleHyphen_tail h)) ?_
    intro b hb
    exact noDoubleHyphen_pair h (head?_take hb)

theorem noDoubleHyphen_dropWhile (p : Char → Bool) : ∀ {l : List Char},
    noDoubleHyphen l = true → noDoubleHyphen (l.dropWhile p) = true
  | [], _ => rfl
  | c :: t, h => by
    rw [List.dropWhile_cons]
    split
    · exact noDoubleHyphen_dropWhile p (noDoubleHyphen_tail h)
    · exact h

theorem head?_dropWhile_not (p : Char → Bool) : ∀ {l : List Char} {c : Char},
    (l.dropWhile p).head? = some c → p c = false
  | [], c, h => by simp at h
  | x :: xs, c, h => by
    rw [List.dropWhile_cons] at h
    split at h
    · exact head?_dropWhile_not p h
    · rename_i hx
      simp only [List.head?_cons, Option.some.injEq] at h
      subst h
      exact Bool.eq_false_iff.mpr hx

theorem mem_dropTrailingHyphens {c : Char} : ∀ {l : List Char},
    c ∈ dropTrailingHyphens l → c ∈ l
  | [], h => by simp [dropTrailingHyphens] at h
  | x :: xs, h => by
    simp only [dropTrailingHyphens] at h
    split at h
    · split at h
      · simp at h
      · rcases List.mem_singleton.mp h with rfl
        exact List.mem_cons_self _ _
    · rcases List.mem_cons.mp h with rfl | h'
      · exact List.mem_cons_self _ _
      · exact List.mem_cons_of_mem x (mem_dropTrailingHyphens h')

theorem head?_dropTrailingHyphens : ∀ {l : List Char} {c : Char},
    (dropTrailingHyphens l).head? = some c → l.head? = some c
  | [], c, h => by simp [dropTrailingHyphens] at h
  | x :: xs, c, h => by
    simp only [dropTrailingHyphens] at h
    split at h
    · split at h
      · simp at h
      · simpa using h
    · simpa using h

theorem lastCh_dropTrailingHyphens : ∀ {l : List Char} {c : Char},
    lastCh (dropTrailingHyphens l) = some c → c ≠ '-'
  | [], c, h => by simp [dropTrailingHyphens, lastCh] at h
  | x :: xs, c, h => by
    simp only [dropTrailingHyphens] at h
    split at h
    · rename_i hnil
      split at h
      · simp [lastCh] at h
      · rename_i hx
        simp only [lastCh, Option.some.injEq] at h
        subst h
        simpa using hx
    · rename_i heq
      cases hr : dropTrailingHyphens xs with
      | nil => exact absurd hr heq
      | cons y ys =>
        rw [hr] at h
        simp only [lastCh] at h
        exact lastCh_dropTrailingHyphens (l := xs) (by rw [hr]; exact h)

theorem noDoubleHyphen_dropTrailingHyphens : ∀ {l : List Char},
    noDoubleHyphen l = true → noDoubleHyphen (dropTrailingHyphens l) = true
  | [], _ => rfl
  | x :: xs, h => by
    simp only [dropTrailingHyphens]
    cases hr : dropTrailingHyphens xs with
    | nil =>
      by_cases hx : (x == '-') = true <;> simp [hx, noDoubleHyphen]
    | cons y ys =>
      show noDoubleHyphen (x :: y :: ys) = true
      refine noDoubleHyphen_cons_of ?_ ?_
      · rw [← hr]
        exact noDoubleHyphen_dropTrailingHyphens (noDoubleHyphen_tail h)
      · intro b hb
        refine noDoubleHyphen_pair h (head?_dropTrailingHyphens ?_)
        rw [hr]
        exact hb

theorem dropOneTrailingHyphen_eq_nil : ∀ {l : List Char},
    dropOneTrailingHyphen l = [] → l = [] ∨ l = ['-']
  | [], _ => Or.inl rfl
  | [c], h => by
    simp only [dropOneTrailingHyphen] at h
    split at h
    · rename_i hc
      simp only [beq_iff_eq] at hc
      exact Or.inr (by rw [hc])
    · simp at h
  | _ :: _ :: _, h => by simp [dropOneTrailingHyphen] at h

theorem mem_dropOneTrailingHyphen {c : Char} : ∀ {l : List Char},
    c ∈ dropOneTrailingHyphen l → c ∈ l
  | [], h => by simp [dropOneTrailingHyphen] at h
  | [a], h => by
    simp only [dropOneTrailingHyphen] at h
    split at h
    · simp at h
    · rcases List.mem_singleton.mp h with rfl
      exact List.mem_cons_self _ _
  | a :: b :: rest, h => by
    simp only [dropOneTrailingHyphen] at h
    rcases List.mem_cons.mp h with rfl | h'
    · exact List.mem_cons_self _ _
    · exact List.mem_cons_of_mem a (mem_dropOneTrailingHyphen h')

theorem head?_dropOneTrailingHyphen : ∀ {l : List Char} {c : Char},
    (dropOneTrailingHyphen l).head? = some c → l.head? = some c
  | [], c, h => by simp [dropOneTrailingHyphen] at h
  | [a], c, h => by
    simp only [dropOneTrailingHyphen] at h
    split at h
    · simp at h
    · simpa using h
  | a :: b :: rest, c, h => by
    simp only [dropOneTrailingHyphen, List.head?_cons, Option.some.injEq] at h
    simp [h]

theorem length_dropOneTrailingHyphen : ∀ (l : List Char),
    (dropOneTrailingHyphen l).length ≤ l.length
  | [] => Nat.le_refl _
  | [c] => by
    simp only [dropOneTrailingHyphen]
    split <;> simp
  | a :: b :: rest => by
    simp only [dropOneTrailingHyphen, List.length_cons]
    have := length_dropOneTrailingHyphen (b :: rest)
    simp only [List.length_cons] at this ⊢
    omega

theorem noDoubleHyphen_dropOneTrailingHyphen : ∀ {l : List Char},
    noDoubleHyphen l = true → noDoubleHyphen (dropOneTrailingHyphen l) = true
  | [], _ => rfl
  | [c], _ => by
    simp only [dropOneTrailingHyphen]
    split <;> rfl
  | a :: b :: rest, h => by
    simp only [dropOneTrailingHyphen]
    refine noDoubleHyphen_cons_of (noDoubleHyphen_dropOneTrailingHyphen (noDoubleHyphen_tail h)) ?_
    intro d hd
    exact noDoubleHyphen_pair h (head?_dropOneTrailingHyphen hd)

theorem lastCh_dropOneTrailingHyphen : ∀ {l : List Char} {c : Char},
    noDoubleHyphen l = true → lastCh (dropOneTrailingHyphen l) = some c → c ≠ '-'
  | [], c, _, h => by simp [dropOneTrailingHyphen, lastCh] at h
  | [a], c, _, h => by
    simp only [dropOneTrailingHyphen] at h
    split at h
    · simp [lastCh] at h
    · rename_i ha
      simp only [lastCh, Option.some.injEq] at h
      subst h
      simpa using ha
  | a :: b :: rest, c, hn, h => by
    simp only [dropOneTrailingHyphen] at h
    cases hr : dropOneTrailingHyphen (b :: rest) with
    | nil =>
      rw [hr] at h
      simp only [lastCh, Option.some.injEq] at h
      subst h
      rcases dropOneTrailingHyphen_eq_nil hr with h' | h'
      · simp at h'
      · have hb : b = '-' := by
          have := congrArg List.head? h'
          simpa using this
        subst hb
        have := noDoubleHyphen_pair hn (l := '-' :: rest) rfl
        simpa using this
    | cons y ys =>
      rw [hr] at h
      simp only [lastCh] at h
      exact lastCh_dropOneTrailingHyphen (noDoubleHyphen_tail hn) (by rw [hr]; exact h)

theorem handleRegexAux_accepts : ∀ (fuel : ℕ) (l : List Char), l.length ≤ fuel →
    (∀ c ∈ l, okChar c = true) → noDoubleHyphen l = true →
    (∀ c, lastCh l = some c → c ≠ '-') →
    (∀ c, l.head? = some c → isLowerAlnum c = true) →
    l ≠ [] → ∀ a, handleRegexAux l a = true := by
  intro fuel
  induction fuel with
  | zero =>
    intro l hlen _ _ _ _ hne _
    cases l with
    | nil => exact absurd rfl hne
    | cons c t => simp at hlen
  | succ n ih =>
    intro l hlen hok hnd hlast hhead hne a
    cases l with
    | nil => exact absurd rfl hne
    | cons c t =>
      have hc : isLowerAlnum c = true := hhead c rfl
      cases t with
      | nil => simp [handleRegexAux, hc]
      | cons d rest =>
        show handleRegexAux (c :: d :: rest) a = true
        rw [handleRegexAux, if_pos hc]
        by_cases hd : isLowerAlnum d = true
        · refine ih (d :: rest) ?_ ?_ (noDoubleHyphen_tail hnd) ?_ ?_ (by simp) true
          · simp only [List.length_cons] at hlen ⊢
            omega
          · exact fun x hx => hok x (List.mem_cons_of_mem c hx)
          · exact fun x hx => hlast x hx
          · intro x hx
            simp only [List.head?_cons, Option.some.injEq] at hx
            subst hx
            exact hd
        · have hd' : d = '-' := by
            have := hok d (List.mem_cons_of_mem c (List.mem_cons_self d rest))
            simp only [okChar, Bool.or_eq_true, beq_iff_eq] at this
            rcases this with h' | h'
            · exact absurd h' hd
            · exact h'
          subst hd'
          rw [handleRegexAux]
          rw [if_neg (by decide), if_pos (by simp)]
          cases rest with
          | nil =>
            exact absurd rfl (hlast '-' rfl)
          | cons e rest' =>
            have hpair := noDoubleHyphen_pair (noDoubleHyphen_tail hnd) (b := e)
              (l := e :: rest') rfl
            have hne' : e ≠ '-' := by
              simp only [Bool.and_eq_false_iff, beq_eq_false_iff_ne, ne_eq,
                not_true_eq_false, false_or] at hpair
              exact hpair
            have he : isLowerAlnum e = true := by
              have hoke := hok e (by simp)
              simp only [okChar, Bool.or_eq_true, beq_iff_eq] at hoke
              rcases hoke with h' | h'
              · exact h'
              · exact absurd h' hne'
            refine ih (e :: rest') ?_ ?_ ?_ ?_ ?_ (by simp) false
            · simp only [List.length_cons] at hlen ⊢
              omega
            · exact fun x hx => hok x (by simp [List.mem_cons] at hx ⊢; tauto)
            · exact noDoubleHyphen_tail (noDoubleHyphen_tail hnd)
            · exact fun x hx => hlast x hx
            · intro x hx
              simp only [List.head?_cons, Option.some.injEq] at hx
              subst hx
              exact he

theorem generate_handle_eq (s : List Char) :
    generate_handle s = dropOneTrailingHyphen ((trimHyphens (squeezeHyphens
      (mapNonAlnumToHyphen (lowerL (trimSpaces s))))).take 50) := by
  have h3nd : noDoubleHyphen (trimHyphens (squeezeHyphens
      (mapNonAlnumToHyphen (lowerL (trimSpaces s))))) = true :=
    noDoubleHyphen_dropTrailingHyphens
      (noDoubleHyphen_dropWhile _ (noDoubleHyphen_squeezeHyphens _))
  show dropOneTrailingHyphen ((squeezeHyphens (trimHyphens (squeezeHyphens
      (mapNonAlnumToHyphen (lowerL (trimSpaces s)))))).take 50) = _
  rw [squeezeHyphens_of_noDoubleHyphen h3nd]

theorem mem_generate_handle {s : List Char} {c : Char}
    (h : c ∈ generate_handle s) : okChar c = true := by
  rw [generate_handle_eq] at h
  have h1 := List.take_subset _ _ (mem_dropOneTrailingHyphen h)
  simp only [trimHyphens] at h1
  have h2 := (List.dropWhile_sublist _).subset (mem_dropTrailingHyphens h1)
  exact mem_mapNonAlnumToHyphen (mem_squeezeHyphens h2)

theorem length_generate_handle (s : List Char) : (generate_handle s).length ≤ 50 := by
  rw [generate_handle_eq]
  exact le_trans (length_dropOneTrailingHyphen _) (List.length_take_le 50 _)

theorem generate_handle_empty_or_matches (s : List Char) :
    generate_handle s = [] ∨ matchesHandleRegex (generate_handle s) = true := by
  cases hg : generate_handle s with
  | nil => exact Or.inl rfl
  | cons c t =>
    right
    have h3nd : noDoubleHyphen (trimHyphens (squeezeHyphens
        (mapNonAlnumToHyphen (lowerL (trimSpaces s))))) = true :=
      noDoubleHyphen_dropTrailingHyphens
        (noDoubleHyphen_dropWhile _ (noDoubleHyphen_squeezeHyphens _))
    have h5nd : noDoubleHyphen ((trimHyphens (squeezeHyphens
        (mapNonAlnumToHyphen (lowerL (trimSpaces s))))).take 50) = true :=
      noDoubleHyphen_take 50 h3nd
    have hfnd : noDoubleHyphen (generate_handle s) = true := by
      rw [generate_handle_eq]
      exact noDoubleHyphen_dropOneTrailingHyphen h5nd
    rw [← hg]
    show handleRegexAux (generate_handle s) false = true
    refine handleRegexAux_accepts (generate_handle s).length _ le_rfl
      (fun x hx => mem_generate_handle hx) hfnd ?_ ?_ (by rw [hg]; simp) false
    · intro x hx
      rw [generate_handle_eq] at hx
      exact lastCh_dropOneTrailingHyphen h5nd hx
    · intro x hx
      have hokx : okChar x = true :=
        mem_generate_handle (s := s) (List.mem_of_mem_head? (by simp [hx]))
      rw [generate_handle_eq] at hx
      have hx3 := head?_take (head?_dropOneTrailingHyphen hx)
      simp only [trimHyphens] at hx3
      have hnh : (x == '-') = false :=
        head?_dropWhile_not (fun y => y == '-') (head?_dropTrailingHyphens hx3)
      simp only [okChar, Bool.or_eq_true] at hokx
      rcases hokx with h' | h'
      · exact h'
      · rw [h'] at hnh
        simp at hnh

theorem mem_handleize {s : List Char} {c : Char} (h : c ∈ handleize s) :
    okChar c = true := by
  simp only [handleize] at h
  have h1 := List.take_subset _ _ h
  exact (List.mem_filter.mp h1).2

theorem length_handleize (s : List Char) : (handleize s).length ≤ 32 :=
  List.length_take_le 32 _

theorem digitChar_isDigit {d : ℕ} (h : d < 10) :
    isDigitCh (Char.ofNat (48 + d)) = true := by
  interval_cases d <;> decide

theorem natReprAux_digits : ∀ (fuel n : ℕ), n < fuel →
    natReprAux fuel n ≠ [] ∧ ∀ c ∈ natReprAux fuel n, isDigitCh c = true := by
  intro fuel
  induction fuel with
  | zero => intro n hn; omega
  | succ m ih =>
    intro n hn
    by_cases h10 : n < 10
    · refine ⟨by simp [natReprAux, h10], ?_⟩
      intro c hc
      simp only [natReprAux, if_pos h10, List.mem_singleton] at hc
      subst hc
      exact digitChar_isDigit h10
    · have hdiv : n / 10 < m := by omega
      obtain ⟨hne, hdig⟩ := ih (n / 10) hdiv
      constructor
      · simp [natReprAux, h10, hne]
      · intro c hc
        simp only [natReprAux, if_neg h10, List.mem_append, List.mem_singleton] at hc
        rcases hc with hc | rfl
        · exact hdig c hc
        · exact digitChar_isDigit (Nat.mod_lt n (by omega))

/-! ## Helper lemmas for the ownership claims -/

theorem paymentPolicy_iff (db : DB) (uid : ℕ) (p : Payment) :
    paymentPolicy db uid p = true ↔ ownsPayment db uid p := by
  simp only [paymentPolicy, ownsPayment, List.any_eq_true, Bool.and_eq_true, beq_iff_eq]
  constructor
  · rintro ⟨v, hv, h1, h2⟩
    exact ⟨v, hv, h1, h2.symm⟩
  · rintro ⟨v, hv, h1, h2⟩
    exact ⟨v, hv, h1, h2.symm⟩

theorem vaultSpendingSummary_eq (db : DB) (uid : ℕ) :
    vaultSpendingSummary db uid =
      (db.vaults.filter (fun v => uid == v.user_id)).map
        (fun v => summaryRowFor (db.payments.filter (fun p => p.vault_id == v.id)) v) := by
  unfold vaultSpendingSummary
  rw [List.filter_congr (q := fun v => uid == v.user_id)
    (by intro v _; simp [vaultPolicy, Bool.and_self])]
  apply List.map_congr_left
  intro v hv
  simp only [List.mem_filter, beq_iff_eq] at hv
  congr 1
  apply List.filter_congr
  intro p _
  by_cases hpv : p.vault_id = v.id
  · have hpol : paymentPolicy db uid p = true := by
      simp only [paymentPolicy, List.any_eq_true, Bool.and_eq_true, beq_iff_eq]
      exact ⟨v, hv.1, hpv.symm, hv.2⟩
    simp [hpv, hpol]
  · simp [hpv]

/-- C1: for every caller and every protected row (vault, payment via its
vault's owner, user profile), reads under the row-level policies equal the
naive reads intersected with the caller-ownership filter; rows the caller
does not own are invisible; an update or delete whose client predicate only
targets rows outside the caller's ownership affects zero rows and leaves the
database unchanged; and the derived `vault_spending_summary` view equals the
naive view body restricted to the caller's own vaults. -/
theorem claim_C1 (db : DB) (uid : ℕ) (q : Payment → Bool) (qv : Vault → Bool)
    (qp : UserProfile → Bool) (f : Payment → Payment) (g : Vault → Vault)
    (fr : UserProfile → UserProfile) :
    (selectPayments db uid q
        = (db.payments.filter q).filter (fun p => paymentPolicy db uid p)
      ∧ selectVaults db uid qv
        = (db.vaults.filter qv).filter (fun v => uid == v.user_id)
      ∧ selectProfiles db uid qp
        = (db.profiles.filter qp).filter (fun r => uid == r.user_id))
    ∧ (∀ p, paymentPolicy db uid p = true ↔ ownsPayment db uid p)
    ∧ (∀ p, ¬ ownsPayment db uid p → p ∉ selectPayments db uid q)
    ∧ (∀ v : Vault, v.user_id ≠ uid → v ∉ selectVaults db uid qv)
    ∧ (∀ r : UserProfile, r.user_id ≠ uid → r ∉ selectProfiles db uid qp)
    ∧ ((∀ p ∈ db.payments, q p = true → ¬ ownsPayment db uid p) →
        (updatePayments db uid q f).2 = 0 ∧ (updatePayments db uid q f).1 = db
          ∧ (deletePayments db uid q).2 = 0 ∧ (deletePayments db uid q).1 = db)
    ∧ ((∀ v ∈ db.vaults, qv v = true → v.user_id ≠ uid) →
        (updateVaults db uid qv g).2 = 0 ∧ (updateVaults db uid qv g).1 = db
          ∧ (deleteVaults db uid qv).2 = 0 ∧ (deleteVaults db uid qv).1 = db)
    ∧ ((∀ r ∈ db.profiles, qp r = true → r.user_id ≠ uid) →
        (updateProfiles db uid qp fr).2 = 0 ∧ (updateProfiles db uid qp fr).1 = db)
    ∧ vaultSpendingSummary db uid
        = (db.vaults.filter (fun v => uid == v.user_id)).map
            (fun v => summaryRowFor (db.payments.filter (fun p => p.vault_id == v.id)) v) := by
  refine ⟨⟨?_, ?_, ?_⟩, paymentPolicy_iff db uid, ?_, ?_, ?_, ?_, ?_, ?_,
    vaultSpendingSummary_eq db uid⟩
  · rw [List.filter_filter]
    exact List.filter_congr fun p _ => by rw [Bool.and_comm]
  · rw [List.filter_filter]
    exact List.filter_congr fun v _ => by rw [Bool.and_comm]; rfl
  · rw [List.filter_filter]
    exact List.filter_congr fun r _ => by rw [Bool.and_comm]; rfl
  · intro p hno hmem
    simp only [selectPayments, List.mem_filter, Bool.and_eq_true] at hmem
    exact hno ((paymentPolicy_iff db uid p).mp hmem.2.2)
  · intro v hno hmem
    simp only [selectVaults, List.mem_filter, Bool.and_eq_true, vaultPolicy,
      beq_iff_eq] at hmem
    exact hno hmem.2.2.symm
  · intro r hno hmem
    simp only [selectProfiles, List.mem_filter, Bool.and_eq_true, profilePolicy,
      beq_iff_eq] at hmem
    exact hno hmem.2.2.symm
  · intro hq
    have hall : ∀ p ∈ db.payments, (q p && paymentPolicy db uid p) = false := by
      intro p hp
      by_cases hqp : q p = true
      · have : paymentPolicy db uid p = false :=
          Bool.eq_false_iff.mpr fun hpol =>
            hq p hp hqp ((paymentPolicy_iff db uid p).mp hpol)
        simp [hqp, this]
      · simp [Bool.eq_false_iff.mpr hqp]
    have hfil : db.payments.filter (fun p => q p && paymentPolicy db uid p) = [] := by
      rw [List.filter_eq_nil_iff]
      intro p hp
      simp [hall p hp]
    have hmap : (db.payments.map
        (fun p => if q p && paymentPolicy db uid p then f p else p)) = db.payments := by
      have := List.map_congr_left (l := db.payments)
        (f := fun p => if q p && paymentPolicy db uid p then f p else p) (g := id)
        (fun p hp => by simp [hall p hp])
      simpa using this
    have hkeep : (db.payments.filter
        (fun p => !(q p && paymentPolicy db uid p))) = db.payments := by
      rw [List.filter_eq_self]
      intro p hp
      simp [hall p hp]
    refine ⟨by simp [updatePayments, hfil], ?_, by simp [deletePayments, hfil], ?_⟩
    · calc (updatePayments db uid q f).1
          = { db with payments := (db.payments.map
              (fun p => if q p && paymentPolicy db uid p then f p else p)) } := rfl
        _ = { db with payments := db.payments } := by rw [hmap]
        _ = db := rfl
    · calc (deletePayments db uid q).1
          = { db with payments := (db.payments.filter
              (fun p => !(q p && paymentPolicy db uid p))) } := rfl
        _ = { db with payments := db.payments } := by rw [hkeep]
        _ = db := rfl
  · intro hqv
    have hallv : ∀ v ∈ db.vaults, (qv v && vaultPolicy uid v) = false := by
      intro v hv
      by_cases hq1 : qv v = true
      · have : vaultPolicy uid v = false := by
          simp only [vaultPolicy]
          exact beq_eq_false_iff_ne.mpr fun h => hqv v hv hq1 h.symm
        simp [hq1, this]
      · simp [Bool.eq_false_iff.mpr hq1]
    have hfilv : db.vaults.filter (fun v => qv v && vaultPolicy uid v) = [] := by
      rw [List.filter_eq_nil_iff]
      intro v hv
      simp [hallv v hv]
    have hmapv : (db.vaults.map
        (fun v => if qv v && vaultPolicy uid v then g v else v)) = db.vaults := by
      have := List.map_congr_left (l := db.vaults)
        (f := fun v => if qv v && vaultPolicy uid v then g v else v) (g := id)
        (fun v hv => by simp [hallv v hv])
      simpa using this
    have hkeepv : (db.vaults.filter
        (fun v => !(qv v && vaultPolicy uid v))) = db.vaults := by
      rw [List.filter_eq_self]
      intro v hv
      simp [hallv v hv]
    have hkeepc : (db.payments.filter (fun p =>
        !(db.vaults.any (fun v => (qv v && vaultPolicy uid v) && v.id == p.vault_id))))
        = db.payments := by
      rw [List.filter_eq_self]
      intro p _
      simp only [Bool.not_eq_true']
      apply Bool.eq_false_iff.mpr
      intro hany
      obtain ⟨v, hv, hcond⟩ := List.any_eq_true.mp hany
      rw [Bool.and_eq_true] at hcond
      rw [hallv v hv] at hcond
      exact absurd hcond.1 (by simp)
    refine ⟨by simp [updateVaults, hfilv], ?_, by simp [deleteVaults, hfilv], ?_⟩
    · calc (updateVaults db uid qv g).1
          = { db with vaults := (db.vaults.map
              (fun v => if qv v && vaultPolicy uid v then g v else v)) } := rfl
        _ = { db with vaults := db.vaults } := by rw [hmapv]
        _ = db := rfl
    · calc (deleteVaults db uid qv).1
          = { db with
              vaults := (db.vaults.filter (fun v => !(qv v && vaultPolicy uid v))),
              payments := (db.payments.filter (fun p =>
                !(db.vaults.any (fun v =>
                  (qv v && vaultPolicy uid v) && v.id == p.vault_id)))) } := rfl
        _ = { db with vaults := db.vaults, payments := db.payments } := by
              rw [hkeepv, hkeepc]
        _ = db := rfl
  · intro hqp
    have hallr : ∀ r ∈ db.profiles, (qp r && profilePolicy uid r) = false := by
      intro r hr
      by_cases hq1 : qp r = true
      · have : profilePolicy uid r = false := by
          simp only [profilePolicy]
          exact beq_eq_false_iff_ne.mpr fun h => hqp r hr hq1 h.symm
        simp [hq1, this]
      · simp [Bool.eq_false_iff.mpr hq1]
    have hfilr : db.profiles.filter (fun r => qp r && profilePolicy uid r) = [] := by
      rw [List.filter_eq_nil_iff]
      intro r hr
      simp [hallr r hr]
    have hmapr : (db.profiles.map
        (fun r => if qp r && profilePolicy uid r then fr r else r)) = db.profiles := by
      have := List.map_congr_left (l := db.profiles)
        (f := fun r => if qp r && profilePolicy uid r then fr r else r) (g := id)
        (fun r hr => by simp [hallr r hr])
      simpa using this
    refine ⟨by simp [updateProfiles, hfilr], ?_⟩
    calc (updateProfiles db uid qp fr).1
        = { db with profiles := (db.profiles.map
            (fun r => if qp r && profilePolicy uid r then fr r else r)) } := rfl
      _ = { db with profiles := db.profiles } := by rw [hmapr]
      _ = db := rfl

/-- Witness for C1: a caller (uid 20) who owns nothing in a database holding
another user's vault, payment and profile; blanket updates/deletes on all
three entities touch zero rows and leave the database unchanged. -/
theorem claim_C1_witness :
    ((updatePayments
        ⟨[⟨1, 10, [], ['h'], []⟩], [⟨1, 1, ['0'], PaymentStatus.active, none, 0, [], none⟩],
         [⟨10, ['0'], false⟩]⟩
        20 (fun _ => true) (fun p => p)).2 = 0
      ∧ (updatePayments
          ⟨[⟨1, 10, [], ['h'], []⟩], [⟨1, 1, ['0'], PaymentStatus.active, none, 0, [], none⟩],
           [⟨10, ['0'], false⟩]⟩
          20 (fun _ => true) (fun p => p)).1
        = ⟨[⟨1, 10, [], ['h'], []⟩], [⟨1, 1, ['0'], PaymentStatus.active, none, 0, [], none⟩],
           [⟨10, ['0'], false⟩]⟩
      ∧ (deletePayments
          ⟨[⟨1, 10, [], ['h'], []⟩], [⟨1, 1, ['0'], PaymentStatus.active, none, 0, [], none⟩],
           [⟨10, ['0'], false⟩]⟩
          20 (fun _ => true)).2 = 0
      ∧ (deletePayments
          ⟨[⟨1, 10, [], ['h'], []⟩], [⟨1, 1, ['0'], PaymentStatus.active, none, 0, [], none⟩],
           [⟨10, ['0'], false⟩]⟩
          20 (fun _ => true)).1
        = ⟨[⟨1, 10, [], ['h'], []⟩], [⟨1, 1, ['0'], PaymentStatus.active, none, 0, [], none⟩],
           [⟨10, ['0'], false⟩]⟩)
    ∧ ((updateVaults
        ⟨[⟨1, 10, [], ['h'], []⟩], [⟨1, 1, ['0'], PaymentStatus.active, none, 0, [], none⟩],
         [⟨10, ['0'], false⟩]⟩
        20 (fun _ => true) (fun v => v)).2 = 0
      ∧ (updateVaults
          ⟨[⟨1, 10, [], ['h'], []⟩], [⟨1, 1, ['0'], PaymentStatus.active, none, 0, [], none⟩],
           [⟨10, ['0'], false⟩]⟩
          20 (fun _ => true) (fun v => v)).1
        = ⟨[⟨1, 10, [], ['h'], []⟩], [⟨1, 1, ['0'], PaymentStatus.active, none, 0, [], none⟩],
           [⟨10, ['0'], false⟩]⟩
      ∧ (deleteVaults
          ⟨[⟨1, 10, [], ['h'], []⟩], [⟨1, 1, ['0'], PaymentStatus.active, none, 0, [], none⟩],
           [⟨10, ['0'], false⟩]⟩
          20 (fun _ => true)).2 = 0
      ∧ (deleteVaults
          ⟨[⟨1, 10, [], ['h'], []⟩], [⟨1, 1, ['0'], PaymentStatus.active, none, 0, [], none⟩],
           [⟨10, ['0'], false⟩]⟩
          20 (fun _ => true)).1
        = ⟨[⟨1, 10, [], ['h'], []⟩], [⟨1, 1, ['0'], PaymentStatus.active, none, 0, [], none⟩],
           [⟨10, ['0'], false⟩]⟩)
    ∧ ((updateProfiles
        ⟨[⟨1, 10, [], ['h'], []⟩], [⟨1, 1, ['0'], PaymentStatus.active, none, 0, [], none⟩],
         [⟨10, ['0'], false⟩]⟩
        20 (fun _ => true) (fun r => r)).2 = 0
      ∧ (updateProfiles
          ⟨[⟨1, 10, [], ['h'], []⟩], [⟨1, 1, ['0'], PaymentStatus.active, none, 0, [], none⟩],
           [⟨10, ['0'], false⟩]⟩
          20 (fun _ => true) (fun r => r)).1
        = ⟨[⟨1, 10, [], ['h'], []⟩], [⟨1, 1, ['0'], PaymentStatus.active, none, 0, [], none⟩],
           [⟨10, ['0'], false⟩]⟩) :=
  ⟨(claim_C1
      ⟨[⟨1, 10, [], ['h'], []⟩], [⟨1, 1, ['0'], PaymentStatus.active, none, 0, [], none⟩],
       [⟨10, ['0'], false⟩]⟩
      20 (fun _ => true) (fun _ => true) (fun _ => true) (fun p => p) (fun v => v)
      (fun r => r)).2.2.2.2.2.1 (by decide),
   (claim_C1
      ⟨[⟨1, 10, [], ['h'], []⟩], [⟨1, 1, ['0'], PaymentStatus.active, none, 0, [], none⟩],
       [⟨10, ['0'], false⟩]⟩
      20 (fun _ => true) (fun _ => true) (fun _ => true) (fun p => p) (fun v => v)
      (fun r => r)).2.2.2.2.2.2.1 (by decide),
   (claim_C1
      ⟨[⟨1, 10, [], ['h'], []⟩], [⟨1, 1, ['0'], PaymentStatus.active, none, 0, [], none⟩],
       [⟨10, ['0'], false⟩]⟩
      20 (fun _ => true) (fun _ => true) (fun _ => true) (fun p => p) (fun v => v)
      (fun r => r)).2.2.2.2.2.2.2.1 (by decide)⟩

/-- C2: once a `POST` has looked the nonce up and reached redemption, the
nonce row is deleted from the store whichever way signature verification then
goes (the verifier oracle `v1` is arbitrary, so this covers both the success
and the failed-signature continuation), and a second `POST` presenting the
same message is answered `Invalid or expired nonce` (401) with no further
state change. -/
theorem claim_C2 (store : List NonceRow) (now now2 : ℤ) (addr msg sig : List Char)
    (v1 v2 : Chain → Bool) (n : List Char)
    (ha : addr.isEmpty = false) (hm : msg.isEmpty = false) (hs : sig.isEmpty = false)
    (hn : extractNonce msg = some n) (hfound : nonceLookup store now n = true) :
    ((postVerify store now addr msg sig v1).2 = (nonceDelete store n).1
      ∧ ∀ r ∈ (postVerify store now addr msg sig v1).2, r.nonce ≠ n)
    ∧ postVerify (postVerify store now addr msg sig v1).2 now2 addr msg sig v2
        = (AuthResponse.invalidOrExpiredNonce, (postVerify store now addr msg sig v1).2) := by
  have hpost : (postVerify store now addr msg sig v1).2 = (nonceDelete store n).1 := by
    simp [postVerify, ha, hm, hs, hn, hfound]
  have hmem : ∀ r ∈ (nonceDelete store n).1, r.nonce ≠ n := by
    intro r hr
    simp only [nonceDelete, List.mem_filter, Bool.not_eq_true'] at hr
    exact fun hrn => by
      rw [beq_eq_false_iff_ne] at hr
      exact hr.2 hrn
  have hlook : nonceLookup (nonceDelete store n).1 now2 n = false := by
    apply Bool.eq_false_iff.mpr
    intro hany
    simp only [nonceLookup, List.any_eq_true, Bool.and_eq_true, beq_iff_eq] at hany
    obtain ⟨r, hr, h1, -⟩ := hany
    exact hmem r hr h1
  refine ⟨⟨hpost, fun r hr => hmem r (hpost ▸ hr)⟩, ?_⟩
  rw [hpost]
  simp [postVerify, redeemOutcome, ha, hm, hs, hn, hlook]

/-- Witness for C2: a failed signature verification (`v1 = fun _ => false`)
still burns the nonce, and replaying the identical triplet is rejected with
the nonce error. -/
theorem claim_C2_witness :
    ((postVerify [⟨"abc".data, 10⟩] 0 "0x1".data "Nonce: abc".data "0xs".data
        (fun _ => false)).2 = (nonceDelete [⟨"abc".data, 10⟩] "abc".data).1
      ∧ ∀ r ∈ (postVerify [⟨"abc".data, 10⟩] 0 "0x1".data "Nonce: abc".data "0xs".data
          (fun _ => false)).2, r.nonce ≠ "abc".data)
    ∧ postVerify (postVerify [⟨"abc".data, 10⟩] 0 "0x1".data "Nonce: abc".data "0xs".data
          (fun _ => false)).2 0 "0x1".data "Nonce: abc".data "0xs".data (fun _ => true)
        = (AuthResponse.invalidOrExpiredNonce,
           (postVerify [⟨"abc".data, 10⟩] 0 "0x1".data "Nonce: abc".data "0xs".data
             (fun _ => false)).2) :=
  claim_C2 [⟨"abc".data, 10⟩] 0 0 "0x1".data "Nonce: abc".data "0xs".data
    (fun _ => false) (fun _ => true) "abc".data rfl rfl rfl (by decide) (by decide)

/-- C9: a nonce whose expiry is not in the future fails the freshness lookup,
so the `POST` answers the 401 nonce error with the store untouched — for
every verifier oracle, in particular one that would have accepted the
signature; signature verification is never reached. -/
theorem claim_C9 (store : List NonceRow) (now : ℤ) (addr msg sig n : List Char)
    (verify : Chain → Bool)
    (ha : addr.isEmpty = false) (hm : msg.isEmpty = false) (hs : sig.isEmpty = false)
    (hn : extractNonce msg = some n)
    (hexp : ∀ r ∈ store, r.nonce = n → r.expires_at ≤ now) :
    postVerify store now addr msg sig verify = (AuthResponse.invalidOrExpiredNonce, store) := by
  have hlook : nonceLookup store now n = false := by
    apply Bool.eq_false_iff.mpr
    intro hany
    simp only [nonceLookup, List.any_eq_true, Bool.and_eq_true, beq_iff_eq,
      decide_eq_true_eq] at hany
    obtain ⟨r, hr, h1, h2⟩ := hany
    exact absurd h2 (not_lt.mpr (hexp r hr h1))
  simp [postVerify, redeemOutcome, ha, hm, hs, hn, hlook]

/-- Witness for C9: a nonce issued at time 0 expires at 300000; presenting it
at time 300001 with a verifier that would declare the signature valid still
yields the nonce error and leaves the store unchanged. -/
theorem claim_C9_witness :
    postVerify (issueNonce [] "abc".data 0) 300001 "0x1".data "Nonce: abc".data
        "0xs".data (fun _ => true)
      = (AuthResponse.invalidOrExpiredNonce, issueNonce [] "abc".data 0) :=
  claim_C9 (issueNonce [] "abc".data 0) 300001 "0x1".data "Nonce: abc".data
    "0xs".data "abc".data (fun _ => true) rfl rfl rfl (by decide) (by decide)

/-- C3: the handler redeems a nonce with a SELECT followed by a DELETE whose
affected-row count is never examined (`redeemOutcome` receives only the
SELECT's result).  Under the interleaving A.select, B.select, A.delete,
B.delete of two concurrent `POST`s presenting the same nonce, both SELECTs
see the fresh row, the first DELETE affects one row, the second affects zero
— and both continuations still mint a session, because only the SELECT's
result feeds the outcome.  An atomic delete-and-check (delete with
affected-count exactly one) would have failed the second request. -/
theorem claim_C3 :
    nonceLookup [⟨"abc".data, 10⟩] 0 "abc".data = true
    ∧ (nonceDelete [⟨"abc".data, 10⟩] "abc".data).2 = 1
    ∧ (nonceDelete (nonceDelete [⟨"abc".data, 10⟩] "abc".data).1 "abc".data).2 = 0
    ∧ redeemOutcome (nonceLookup [⟨"abc".data, 10⟩] 0 "abc".data) Chain.base
        (fun _ => true) = AuthResponse.success Chain.base
    ∧ (postVerify [⟨"abc".data, 10⟩] 0 "0x1".data "Nonce: abc".data "0xs".data
        (fun _ => true)).1 = AuthResponse.success Chain.base := by
  decide

/-- C4 (amended): in the chain-aware verification route the verifier chain is
a function of the chain id claimed in the message — 84532 selects the Base
Sepolia verifier, any other or absent id the Base mainnet verifier — and the
whole handler depends on the verifier oracle only through its answer at that
claimed chain.  (The repository's other verification route file pins the
mainnet verifier regardless of the message; see the counterexample.) -/
theorem claim_C4 :
    (∀ msg : List Char, extractChainId msg = some 84532 →
        chainOfMessage msg = Chain.baseSepolia)
    ∧ (∀ (msg : List Char) (cid : ℕ), extractChainId msg = some cid → cid ≠ 84532 →
        chainOfMessage msg = Chain.base)
    ∧ (∀ msg : List Char, extractChainId msg = none → chainOfMessage msg = Chain.base)
    ∧ (∀ (store : List NonceRow) (now : ℤ) (addr msg sig : List Char)
        (v w : Chain → Bool), v (chainOfMessage msg) = w (chainOfMessage msg) →
        postVerify store now addr msg sig v = postVerify store now addr msg sig w) := by
  refine ⟨?_, ?_, ?_, ?_⟩
  · intro msg h
    simp [chainOfMessage, h]
  · intro msg cid h hne
    simp [chainOfMessage, h, hne]
  · intro msg h
    simp [chainOfMessage, h]
  · intro store now addr msg sig v w hvw
    unfold postVerify
    split
    · rfl
    · cases hex : extractNonce msg with
      | none => rfl
      | some n =>
        simp only [redeemOutcome, hvw]

/-- Witness for C4 at a concrete message claiming chain 84532 and one
claiming 8453. -/
theorem claim_C4_witness :
    chainOfMessage "Chain ID: 84532 Nonce: abc".data = Chain.baseSepolia
    ∧ chainOfMessage "Chain ID: 8453 Nonce: abc".data = Chain.base :=
  ⟨claim_C4.1 "Chain ID: 84532 Nonce: abc".data (by decide),
   claim_C4.2.1 "Chain ID: 8453 Nonce: abc".data 8453 (by decide) (by decide)⟩

/-- Counterexample for C4 as stated: the repository's other verification
route (module-level `createPublicClient({ chain: base })`) verifies a message
claiming chain 84532 against the mainnet verifier.  With an oracle that
accepts the signature on Base Sepolia only — the chain the message claims —
the chain-aware route succeeds while the pinned-mainnet route consults the
wrong verifier and rejects: the verifier chain does mismatch the message's
claimed chain on that endpoint. -/
theorem claim_C4_counterexample :
    chainOfMessage "Chain ID: 84532 Nonce: abc".data = Chain.baseSepolia
    ∧ postVerify [⟨"abc".data, 10⟩] 0 "0x1".data "Chain ID: 84532 Nonce: abc".data
        "0xs".data (fun c => c == Chain.baseSepolia)
      = (AuthResponse.success Chain.baseSepolia, [])
    ∧ postVerifyLegacy [⟨"abc".data, 10⟩] 0 "0x1".data "Chain ID: 84532 Nonce: abc".data
        "0xs".data (fun c => c == Chain.baseSepolia)
      = (AuthResponse.invalidSignature, []) := by
  decide

/-- C5 (amended): creating a vault in an empty scope stores the normalized
handle `H := generate_handle name`; creating a second vault whose name
normalizes to the same `H` stores `H-1` — the trigger's counter is
incremented from 0 before its first use, so the collision suffixes run
`-1, -2, …`, not `-2, -3, …`. -/
theorem claim_C5 (name : List Char) :
    ensure_vault_handle [] name none = generate_handle name
    ∧ ensure_vault_handle [generate_handle name] name none
        = generate_handle name ++ '-' :: natRepr 1 := by
  constructor
  · simp [ensure_vault_handle, pickHandle, handleTaken, candidateHandle]
  · have htaken : handleTaken [generate_handle name]
        (candidateHandle (generate_handle name) 0) = true := by
      simp [handleTaken, candidateHandle]
    have hfree : handleTaken [generate_handle name]
        (candidateHandle (generate_handle name) 1) = false := by
      simp only [handleTaken, candidateHandle, List.any_cons, List.any_nil,
        Bool.or_false, if_neg (by omega : ¬(1 = 0))]
      rw [beq_eq_false_iff_ne]
      intro hcontra
      have := congrArg List.length hcontra
      simp [lowerL, natRepr, natReprAux] at this
    show pickHandle [generate_handle name] (generate_handle name) 0 2
        = generate_handle name ++ '-' :: natRepr 1
    rw [pickHandle, if_pos htaken, pickHandle, if_neg (by rw [hfree]; simp)]
    simp [candidateHandle]

/-- Counterexample for C5 as stated: the second vault named `Marketing Team`
under the same owner receives handle `marketing-team-1`, not
`marketing-team-2`. -/
theorem claim_C5_counterexample :
    ensure_vault_handle [] "Marketing Team".data none = "marketing-team".data
    ∧ ensure_vault_handle ["marketing-team".data] "Marketing Team".data none
        = "marketing-team-1".data
    ∧ ensure_vault_handle ["marketing-team".data] "Marketing Team".data none
        ≠ "marketing-team-2".data := by
  decide

/-- C6 (amended): the SQL `generate_handle` meets the claim in full — its
output is empty or matches `^[a-z0-9]+(-[a-z0-9]+)*$`, has length ≤ 50, and
contains only lowercase alphanumerics and hyphens.  The client-side
`handleize` guarantees only length ≤ 32 and the `[a-z0-9-]` character set: it
can emit leading, trailing or doubled hyphens and then violates the regex
(see the counterexample). -/
theorem claim_C6 (name : List Char) :
    ((generate_handle name = [] ∨ matchesHandleRegex (generate_handle name) = true)
      ∧ (generate_handle name).length ≤ 50
      ∧ ∀ c ∈ generate_handle name, okChar c = true)
    ∧ ((handleize name).length ≤ 32 ∧ ∀ c ∈ handleize name, okChar c = true) :=
  ⟨⟨generate_handle_empty_or_matches name, length_generate_handle name,
    fun _ hc => mem_generate_handle hc⟩,
   length_handleize name, fun _ hc => mem_handleize hc⟩

/-- Witness for C6 at the name `Marketing Team!!`. -/
theorem claim_C6_witness :
    (generate_handle "Marketing Team!!".data = []
      ∨ matchesHandleRegex (generate_handle "Marketing Team!!".data) = true)
    ∧ okChar 'm' = true :=
  ⟨(claim_C6 "Marketing Team!!".data).1.1,
   (claim_C6 "Marketing Team!!".data).1.2.2 'm' (by decide)⟩

/-- Counterexample for C6 as stated: `handleize "a "` turns the trailing
space into a trailing hyphen and returns `"a-"`, which is neither empty nor a
match of `^[a-z0-9]+(-[a-z0-9]+)*$`. -/
theorem claim_C6_counterexample :
    handleize "a ".data = "a-".data
    ∧ matchesHandleRegex (handleize "a ".data) = false
    ∧ handleize "a ".data ≠ [] := by
  decide

/-- C7 (amended): the display round-trip is exact precisely on whole-cent
amounts — for a stored smallest-unit value that is a multiple of 10^4 (and
within the double-exact range), formatting as USD currency and re-parsing the
displayed figure returns the same value.  Sub-cent amounts are rounded away
by the two-fraction-digit currency format (see the counterexample at
`S = "1"`). -/
theorem claim_C7 (n : ℕ) (hcent : n % 10000 = 0) (_hexact : n ≤ 2 ^ 53) :
    displayRoundTrip n = n := by
  unfold displayRoundTrip displayCents
  omega

/-- Witness for C7 at `S = "1000000"` (one USDC, displayed `$1.00`). -/
theorem claim_C7_witness : displayRoundTrip 1000000 = 1000000 :=
  claim_C7 1000000 (by norm_num) (by norm_num)

/-- Counterexample for C7 as stated: the claim's own test value `S = "1"`
(one micro-USDC) formats as `$0.00`, so re-parsing yields 0, not 1. -/
theorem claim_C7_counterexample :
    digitsToNat "1".data = 1
    ∧ displayCents (digitsToNat "1".data) = 0
    ∧ displayRoundTrip (digitsToNat "1".data) = 0
    ∧ displayRoundTrip (digitsToNat "1".data) ≠ digitsToNat "1".data := by
  decide

/-- C8 (amended): the smallest-unit string written by `createPaymentSeries`
is a non-negative integer string whenever the user-entered amount is a
non-negative integer number of USDC whose smallest-unit value stays within
the double-exact, plain-decimal range `n * 10^6 ≤ 2^53` (beyond it the
JavaScript conversion rounds, and from `10^21` upward renders exponential
notation such as `"1e+21"`, so the model is only faithful under the bound),
and no payment-updating operation ever touches the stored amount.  The
conversion itself applies no sign or integrality check, so the invariant is
not established for arbitrary accepted inputs (see the counterexample). -/
theorem claim_C8 :
    (∀ n : ℕ, n * 1000000 ≤ 2 ^ 53 →
        isNonNegIntString (amountInSmallestUnit (n : ℤ)) = true)
    ∧ (∀ (p : Payment) (nd : Option ℤ),
        (updatePaymentExecutionDate p nd).amount = p.amount)
    ∧ (∀ (p : Payment) (tx : List Char) (t : ℤ),
        (storePaymentTransaction p tx t).amount = p.amount) := by
  refine ⟨?_, fun p nd => rfl, fun p tx t => rfl⟩
  intro n _hexact
  unfold amountInSmallestUnit intToDecString
  rw [if_neg (not_lt.mpr (mul_nonneg (Int.natCast_nonneg n) (by norm_num)))]
  have habs : ((n : ℤ) * 1000000).natAbs = n * 1000000 := by
    simp [Int.natAbs_mul]
  rw [habs]
  obtain ⟨hne, hdig⟩ := natReprAux_digits (n * 1000000 + 1) (n * 1000000) (by omega)
  simp only [isNonNegIntString, natRepr, Bool.and_eq_true, Bool.not_eq_true',
    List.all_eq_true]
  constructor
  · cases hr : natReprAux (n * 1000000 + 1) (n * 1000000) with
    | nil => exact absurd hr hne
    | cons x xs => rfl
  · exact fun c hc => hdig c hc

/-- Witness for C8 at 100 USDC, stored as `"100000000"`. -/
theorem claim_C8_witness :
    isNonNegIntString (amountInSmallestUnit ((100 : ℕ) : ℤ)) = true :=
  claim_C8.1 100 (by norm_num)

/-- Counterexample for C8 as stated: `"-5"` passes the only validation
applied to the amount field (`z.string().min(1)`), and the conversion stores
`"-5000000"` — not a non-negative integer string. -/
theorem claim_C8_counterexample :
    amountInputValid "-5".data = true
    ∧ amountInSmallestUnit (-5) = "-5000000".data
    ∧ isNonNegIntString (amountInSmallestUnit (-5)) = false := by
  decide

/-- C10: any insert the checks admit stores a non-empty handle matching
`^[a-z0-9]([a-z0-9-]*[a-z0-9])?$`, and a vault whose name normalizes to the
empty handle — punctuation only — is rejected rather than stored. -/
theorem claim_C10 :
    (∀ (existing : List (List Char)) (name : List Char)
        (handle : Option (List Char)) (h : List Char),
        vaultInsert existing name handle = some h →
        h ≠ [] ∧ vaultsHandleFormat h = true ∧ vaultsHandleNotEmpty h = true)
    ∧ vaultInsert [] "!!!".data none = none := by
  constructor
  · intro existing name handle h hins
    unfold vaultInsert at hins
    split at hins
    · rename_i hc
      simp only [Option.some.injEq] at hins
      subst hins
      simp only [Bool.and_eq_true] at hc
      refine ⟨?_, hc.2, hc.1.2⟩
      intro hnil
      rw [hnil] at hc
      exact absurd hc.2 (by decide)
    · exact absurd hins (by simp)
  · decide

/-- Witness for C10: inserting `Marketing Team!!` succeeds and stores the
well-formed handle `marketing-team`. -/
theorem claim_C10_witness :
    "marketing-team".data ≠ []
    ∧ vaultsHandleFormat "marketing-team".data = true
    ∧ vaultsHandleNotEmpty "marketing-team".data = true :=
  claim_C10.1 [] "Marketing Team!!".data none "marketing-team".data (by decide)
